import Mathlib

/-!
Verification of the `Repository` class of the ionic-orm slice
(src/repository/Repository.ts in the original layout; provided here as a
single source file). The embedding models JavaScript objects as association
lists of string keys to a `JSVal` value universe, entity metadata as the
record of fields the repository consumes (table name, primary columns,
parent-id columns), and the asynchronous query-runner lifecycle as explicit
outcome environments producing a result together with a trace of the
external calls that were issued.
-/

namespace IonicOrm

/-- Universe of JavaScript values appearing in entities, conditions and ids:
`null`, `undefined`, strings, numbers, booleans and nested plain objects. -/
inductive JSVal where
  | null
  | undefined
  | str (s : String)
  | num (n : Int)
  | boolean (b : Bool)
  | obj (fields : List (String × JSVal))

/-- A plain JavaScript object: its own enumerable properties in insertion
order (mirrors `ObjectLiteral` from the source). -/
abbrev ObjectLiteral := List (String × JSVal)

/-- Entities are plain objects in this model. -/
abbrev Entity := ObjectLiteral

/-- Property read that distinguishes absence from presence: `some v` iff the
key is an own property of the object (JS `hasOwnProperty`). -/
def lookupVal : ObjectLiteral → String → Option JSVal
  | [], _ => none
  | (k, v) :: rest, key => if k = key then some v else lookupVal rest key

/-- JS property assignment `o[key] = v`: replaces the value in place when the
key exists, appends the pair otherwise. -/
def setProp : ObjectLiteral → String → JSVal → ObjectLiteral
  | [], key, v => [(key, v)]
  | (k, w) :: rest, key, v =>
      if k = key then (k, v) :: rest else (k, w) :: setProp rest key v

/-- Column descriptor as consumed by the repository: the entity property name
and the database column name (`.propertyName` and `.name` in the source). -/
structure ColumnMetadata where
  propertyName : String
  name : String

/-- The slice of `EntityMetadata` the repository consumes: target identity,
table name, ordered primary-key columns, parent-id columns (single-table
inheritance), and the set of property names present in the entity schema
(used by the plain-object transformers). -/
structure EntityMetadata where
  target : String
  tableName : String
  primaryColumns : List ColumnMetadata
  parentIdColumns : List ColumnMetadata
  schemaProperties : List String

/-- Modelled from the spec: `EntityMetadata.hasMultiplePrimaryKeys` is an
external getter (the metadata subsystem is outside this slice); an entity has
a composite key exactly when it has more than one primary-key column. -/
def EntityMetadata.hasMultiplePrimaryKeys (m : EntityMetadata) : Bool :=
  m.primaryColumns.length > 1

/-- Modelled from the spec: `metadata.create()` returns "a new blank
instance" of the entity; in this model a blank instance has no own
properties. -/
def EntityMetadata.createInstance (_ : EntityMetadata) : Entity :=
  []

/-- Modelled from the spec: `PlainObjectToNewEntityTransformer.transform`
(external to this slice) "copies only properties that present in entity
schema" from the source object onto the target entity. Folding over the
schema's property names, each property that is present on the source is
assigned onto the target. -/
def applyProps (props : List String) (source : ObjectLiteral) (target : Entity) : Entity :=
  props.foldl
    (fun acc prop =>
      match lookupVal source prop with
      | some v => setProp acc prop v
      | none => acc)
    target

/-- `transform(newEntity, object, metadata)` of the plain-object-to-new-entity
transformer, in the argument order of the source call site. -/
def transform (target : Entity) (source : ObjectLiteral) (meta : EntityMetadata) : Entity :=
  applyProps meta.schemaProperties source target

/-- The argument of `Repository.create`: absent, one plain object, or an
array of plain objects (the overloads of the source method). -/
inductive CreateArg where
  | noArg
  | obj (o : ObjectLiteral)
  | arr (os : List ObjectLiteral)

/-- The result of `Repository.create`: one entity or an array of entities. -/
inductive CreateResult where
  | one (e : Entity)
  | many (es : List Entity)

/-- The non-array path of `Repository.create`: allocate a new instance via
the metadata and, when a plain object was given (objects are truthy),
transform it onto the new instance. -/
def createScalar (meta : EntityMetadata) (obj? : Option ObjectLiteral) : Entity :=
  let newEntity := meta.createInstance
  match obj? with
  | some o => transform newEntity o meta
  | none => newEntity

/-- `Repository.create`: an array argument is mapped element-wise through the
scalar path; otherwise the scalar path runs once. -/
def create (meta : EntityMetadata) : CreateArg → CreateResult
  | .arr os => .many (os.map (fun o => createScalar meta (some o)))
  | .obj o => .one (createScalar meta (some o))
  | .noArg => .one (createScalar meta none)

/-- `Repository.merge(...objects)`: creates a new instance via the metadata
and transforms every given object onto it in argument order. -/
def merge (meta : EntityMetadata) (objects : List ObjectLiteral) : Entity :=
  objects.foldl (fun acc o => transform acc o meta) meta.createInstance

/-- The value test of `Repository.hasId` on one primary-key property: the
value must not be `null`, not `undefined` and not the empty string. -/
def hasIdValue : JSVal → Bool
  | .null => false
  | .undefined => false
  | .str s => s ≠ ""
  | _ => true

/-- `Repository.hasId(entity)`: every primary-key column's property must be
an own property of the entity and hold a value that is not `null`, not
`undefined` and not `""`. -/
def hasId (meta : EntityMetadata) (entity : Entity) : Bool :=
  meta.primaryColumns.all (fun primaryColumn =>
    match lookupVal entity primaryColumn.propertyName with
    | some v => hasIdValue v
    | none => false)

/-- `FindOptions`: query configuration with a declared alias and the
pagination settings exercised by the spec's examples (ordering and
relation-loading settings live in the external find-options subsystem and
are not consumed by the repository itself). -/
structure FindOptions where
  aliasName : String
  maxResults : Option Nat := none
  firstResult : Option Nat := none

/-- Modelled from the spec: the external query builder accumulates the
select alias, the from clause, ANDed where expressions in order, bound named
parameters, and the find options that were applied to it. -/
structure QueryBuilder where
  selectAlias : Option String := none
  fromClause : Option (String × String) := none
  whereConds : List String := []
  parameters : List (String × JSVal) := []
  appliedOptions : Option FindOptions := none

/-- Modelled from the spec: `QueryBuilder.select(alias)`. -/
def QueryBuilder.select (qb : QueryBuilder) (a : String) : QueryBuilder :=
  { qb with selectAlias := some a }

/-- Modelled from the spec: `QueryBuilder.from(target, alias)`. -/
def QueryBuilder.from (qb : QueryBuilder) (target a : String) : QueryBuilder :=
  { qb with fromClause := some (target, a) }

/-- Modelled from the spec: `QueryBuilder.andWhere(expr)` adds one more
conjunct to the where clause. -/
def QueryBuilder.andWhere (qb : QueryBuilder) (expr : String) : QueryBuilder :=
  { qb with whereConds := qb.whereConds ++ [expr] }

/-- Modelled from the spec: `QueryBuilder.addParameters(map)` binds the given
object's entries as named parameters. -/
def QueryBuilder.addParameters (qb : QueryBuilder) (o : ObjectLiteral) : QueryBuilder :=
  { qb with parameters := qb.parameters ++ o }

/-- Modelled from the spec: `FindOptionsUtils.applyOptionsToQueryBuilder`
(external) applies the find options' pagination/ordering settings to the
query builder; the model records the options on the builder. -/
def applyOptionsToQueryBuilder (qb : QueryBuilder) (fo : FindOptions) : QueryBuilder :=
  { qb with appliedOptions := some fo }

/-- `Repository.createQueryBuilder(alias)`: a fresh builder selecting the
alias from the metadata's target under that alias. -/
def createQueryBuilder (meta : EntityMetadata) (a : String) : QueryBuilder :=
  QueryBuilder.select {} a |>.from meta.target a

/-- The first positional argument of the find methods: absent, a plain
conditions object, or a `FindOptions` object (the runtime type predicate
`FindOptionsUtils.isFindOptions` discriminates the latter). -/
inductive FirstArg where
  | absent
  | conds (c : ObjectLiteral)
  | findOpts (f : FindOptions)

/-- The `key.indexOf(".") === -1` test of the source, phrased positively:
whether the key contains the qualifier separator `.`. -/
def hasDot (s : String) : Bool :=
  s.data.any (fun ch => ch == '.')

/-- `Repository.createFindQueryBuilder(conditionsOrFindOptions?, options?)`:
decides which argument is the find options, resolves the alias (declared
alias of the find options when present, else the table name), applies the
find options when present, and turns each key of the conditions object into
one ANDed equality predicate — the key is used as-is when it already
contains a `.` qualifier, else qualified with the alias — binding the whole
conditions object as named parameters. -/
def createFindQueryBuilder (meta : EntityMetadata) (first : FirstArg)
    (options : Option FindOptions) : QueryBuilder :=
  let findOptions : Option FindOptions :=
    match first with
    | .findOpts f => some f
    | _ => options
  let conditions : Option ObjectLiteral :=
    match first with
    | .conds c => some c
    | _ => none
  let a : String :=
    match findOptions with
    | some f => f.aliasName
    | none => meta.tableName
  let qb := createQueryBuilder meta a
  let qb :=
    match findOptions with
    | some f => applyOptionsToQueryBuilder qb f
    | none => qb
  match conditions with
  | some c =>
      let qb := c.foldl
        (fun acc kv =>
          let key := kv.1
          let name := if hasDot key then key else a ++ "." ++ key
          acc.andWhere (name ++ "=:" ++ key))
        qb
      qb.addParameters c
  | none => qb

/-- The `id` argument of `Repository.findOneById`: a scalar value or a
mapping object. -/
inductive IdArg where
  | scalar (v : JSVal)
  | mapping (m : ObjectLiteral)

/-- JS indexing `id[key]`: property lookup on a mapping (absent keys read as
`undefined`); indexing a scalar primitive also yields `undefined`. -/
def idIndex : IdArg → String → JSVal
  | .scalar _, _ => .undefined
  | .mapping m, key => (lookupVal m key).getD .undefined

/-- The whole `id` argument as a JS value (the scalar branch of
`findOneById` assigns `id` itself as the condition value). -/
def idAsVal : IdArg → JSVal
  | .scalar v => v
  | .mapping m => .obj m

/-- The conditions object built by `Repository.findOneById`: with a composite
key, one entry per primary column keyed by the column name with the value
`id[primaryColumn.name]`, then one entry per parent-id column keyed by the
column name with the value `id[primaryColumn.propertyName]`; otherwise the
single `id` value keyed by the first primary column's name (or, with no
primary columns, the first parent-id column's name; with neither, no
entries). -/
def findOneByIdConditions (meta : EntityMetadata) (id : IdArg) : ObjectLiteral :=
  if meta.hasMultiplePrimaryKeys then
    meta.primaryColumns.map (fun primaryColumn =>
      (primaryColumn.name, idIndex id primaryColumn.name))
    ++ meta.parentIdColumns.map (fun primaryColumn =>
      (primaryColumn.name, idIndex id primaryColumn.propertyName))
  else
    match meta.primaryColumns with
    | firstPrimaryColumn :: _ => [(firstPrimaryColumn.name, idAsVal id)]
    | [] =>
        match meta.parentIdColumns with
        | firstParentId :: _ => [(firstParentId.name, idAsVal id)]
        | [] => []

/-- Modelled from the spec: `QueryBuilder.getSingleResult()` (external)
returns "the first match or a not-found indication (null/absent) rather than
throwing", given the rows the database returns for the built query. -/
def getSingleResult (exec : QueryBuilder → List Entity) (qb : QueryBuilder) : Option Entity :=
  (exec qb).head?

/-- `Repository.findOne(conditionsOrFindOptions?, options?)`: single-result
execution of the find query builder. -/
def findOne (exec : QueryBuilder → List Entity) (meta : EntityMetadata)
    (first : FirstArg) (options : Option FindOptions) : Option Entity :=
  getSingleResult exec (createFindQueryBuilder meta first options)

/-- `Repository.findOneById(id, options?)`: builds the id conditions and runs
the same single-result query path as `findOne`. -/
def findOneById (exec : QueryBuilder → List Entity) (meta : EntityMetadata)
    (id : IdArg) (options : Option FindOptions) : Option Entity :=
  getSingleResult exec
    (createFindQueryBuilder meta (.conds (findOneByIdConditions meta id)) options)

/-- The conditions object that claim C4 describes `findOneById` to build
(stated from the spec's words, for comparison with the source's
`findOneByIdConditions`): in the composite-key case the value for every
primary-key column is looked up in `id` by the column's PROPERTY name. -/
def findOneByIdConditionsClaim (meta : EntityMetadata) (id : IdArg) : ObjectLiteral :=
  if meta.hasMultiplePrimaryKeys then
    meta.primaryColumns.map (fun primaryColumn =>
      (primaryColumn.name, idIndex id primaryColumn.propertyName))
    ++ meta.parentIdColumns.map (fun primaryColumn =>
      (primaryColumn.name, idIndex id primaryColumn.propertyName))
  else
    match meta.primaryColumns with
    | firstPrimaryColumn :: _ => [(firstPrimaryColumn.name, idAsVal id)]
    | [] =>
        match meta.parentIdColumns with
        | firstParentId :: _ => [(firstParentId.name, idAsVal id)]
        | [] => []

/-- Modelled from the spec: `QueryBuilder.getResults()` (external) returns
all matching rows, given the rows the database returns for the built
query. -/
def getResults (exec : QueryBuilder → List Entity) (qb : QueryBuilder) : List Entity :=
  exec qb

/-- `Repository.find(conditionsOrFindOptions?, options?)`: all results of the
find query builder. -/
def find (exec : QueryBuilder → List Entity) (meta : EntityMetadata)
    (first : FirstArg) (options : Option FindOptions) : List Entity :=
  getResults exec (createFindQueryBuilder meta first options)

/-- `Repository.findAndCount(conditionsOrFindOptions?, options?)`: rows and
total count of the find query builder (`getResultsAndCount()` is external;
`execCount` supplies the count the database returns). -/
def findAndCount (exec : QueryBuilder → List Entity) (execCount : QueryBuilder → Nat)
    (meta : EntityMetadata) (first : FirstArg) (options : Option FindOptions) :
    List Entity × Nat :=
  (exec (createFindQueryBuilder meta first options),
   execCount (createFindQueryBuilder meta first options))

/-- Error values thrown by the external collaborators (driver errors,
constraint violations, errors thrown by the user's work function). -/
abbrev Err := String

/-- Trace events: the calls a repository operation issues to its external
collaborators. Providers are identified by a number so the trace records
which provider each call went to; `runWork p` records that the user's work
function was invoked with a repository whose constructor received the
provider `p`. -/
inductive Event where
  | provide (p : Nat)
  | release (p : Nat)
  | releaseReused (p : Nat)
  | beginTx
  | commitTx
  | rollbackTx
  | runWork (p : Nat)
  | persistCall
  | removeCall
  | runQuery
  deriving DecidableEq

/-- Outcomes of the external calls a single-entity `persist`/`remove`/`query`
operation makes: acquiring the runner, the delegated step, and the release.
Each awaited call either resolves (`ok`) or rejects (`error`). -/
structure OpEnv (α : Type) where
  provideResult : Except Err Unit
  delegateResult : Except Err α
  releaseResult : Except Err Unit

/-- Outcomes of the external calls `Repository.transaction` makes. -/
structure TxEnv (α : Type) where
  provideResult : Except Err Unit
  beginResult : Except Err Unit
  workResult : Except Err α
  commitResult : Except Err Unit
  rollbackResult : Except Err Unit
  releaseResult : Except Err Unit
  releaseReusedResult : Except Err Unit

/-- The single-entity path of `Repository.persist`: use the provider supplied
at construction or a newly created one (`fresh`), await `provide`, run the
persister's `persist` in a `try` block, and release the runner in the
`finally` block. JS `try`/`finally` semantics: if the `finally` step itself
rejects, its error replaces the pending completion; otherwise the `try`
block's completion (result or error) stands. -/
def persistOne {α : Type} (provider? : Option Nat) (fresh : Nat)
    (env : OpEnv α) : Except Err α × List Event :=
  let p := provider?.getD fresh
  match env.provideResult with
  | .error e => (.error e, [.provide p])
  | .ok _ =>
      match env.releaseResult with
      | .error e2 => (.error e2, [.provide p, .persistCall, .release p])
      | .ok _ => (env.delegateResult, [.provide p, .persistCall, .release p])

/-- The single-entity path of `Repository.remove`: same acquire/delegate/
release shape as `persistOne`, delegating to the persister's `remove` (the
provider is constructed in remove mode, a flag the model does not need). -/
def removeOne {α : Type} (provider? : Option Nat) (fresh : Nat)
    (env : OpEnv α) : Except Err α × List Event :=
  let p := provider?.getD fresh
  match env.provideResult with
  | .error e => (.error e, [.provide p])
  | .ok _ =>
      match env.releaseResult with
      | .error e2 => (.error e2, [.provide p, .removeCall, .release p])
      | .ok _ => (env.delegateResult, [.provide p, .removeCall, .release p])

/-- `Repository.query(sql)`: same acquire/delegate/release shape, delegating
to the leased runner's `query`. -/
def queryOp {α : Type} (provider? : Option Nat) (fresh : Nat)
    (env : OpEnv α) : Except Err α × List Event :=
  let p := provider?.getD fresh
  match env.provideResult with
  | .error e => (.error e, [.provide p])
  | .ok _ =>
      match env.releaseResult with
      | .error e2 => (.error e2, [.provide p, .runQuery, .release p])
      | .ok _ => (env.delegateResult, [.provide p, .runQuery, .release p])

/-- `Repository.transaction(runInTransaction)`: acquire a runner from the
supplied provider or a newly created one, construct a transaction-scoped
repository bound to that same provider, then `try` begin/work/commit,
`catch` with rollback (a rollback failure replaces the original error; a
successful rollback rethrows the original error), and `finally` release the
runner and — only when this repository was constructed without a provider —
release the provider's reusable-connection slot. JS semantics: a `finally`
failure replaces the pending completion; within the `finally`, a `release`
failure skips the `releaseReused` call. -/
def transaction {α : Type} (provider? : Option Nat) (fresh : Nat)
    (env : TxEnv α) : Except Err α × List Event :=
  let p := provider?.getD fresh
  match env.provideResult with
  | .error e => (.error e, [.provide p])
  | .ok _ =>
      let tryOut : Except Err α × List Event :=
        match env.beginResult with
        | .error e => (.error e, [.beginTx])
        | .ok _ =>
            match env.workResult with
            | .error e => (.error e, [.beginTx, .runWork p])
            | .ok a =>
                match env.commitResult with
                | .error e => (.error e, [.beginTx, .runWork p, .commitTx])
                | .ok _ => (.ok a, [.beginTx, .runWork p, .commitTx])
      let catchOut : Except Err α × List Event :=
        match tryOut.fst with
        | .ok a => (.ok a, [])
        | .error e =>
            match env.rollbackResult with
            | .error e2 => (.error e2, [.rollbackTx])
            | .ok _ => (.error e, [.rollbackTx])
      let finOut : Except Err α × List Event :=
        match env.releaseResult with
        | .error e3 => (.error e3, [.release p])
        | .ok _ =>
            match provider? with
            | some _ => (catchOut.fst, [.release p])
            | none =>
                match env.releaseReusedResult with
                | .error e4 => (.error e4, [.release p, .releaseReused p])
                | .ok _ => (catchOut.fst, [.release p, .releaseReused p])
      (finOut.fst, Event.provide p :: (tryOut.snd ++ catchOut.snd ++ finOut.snd))

/-- `Promise.all` over already-settled outcomes: resolves with all values in
order when every promise resolves, rejects with the first rejection
otherwise. -/
def collectExcept {α : Type} : List (Except Err α) → Except Err (List α)
  | [] => .ok []
  | .error e :: _ => .error e
  | .ok a :: rest =>
      match collectExcept rest with
      | .error e => .error e
      | .ok as => .ok (a :: as)

/-- The per-element operations issued by the array path of
`Repository.persist`: every element's single-entity persist is started
before the results are joined (the map runs before `Promise.all` waits), so
every element's acquire/delegate/release cycle is issued. When this
repository has no provider of its own, each element call constructs its own
fresh provider, identified here by the element index. -/
def persistResults {α : Type} (provider? : Option Nat) (envs : List (OpEnv α)) :
    List (Except Err α × List Event) :=
  ((List.range envs.length).zip envs).map (fun ie => persistOne provider? ie.1 ie.2)

/-- The array path of `Repository.persist`:
`Promise.all(entities.map(entity => this.persist(entity)))`. The aggregate
trace is the concatenation of every element's trace. -/
def persistMany {α : Type} (provider? : Option Nat) (envs : List (OpEnv α)) :
    Except Err (List α) × List Event :=
  (collectExcept ((persistResults provider? envs).map Prod.fst),
   ((persistResults provider? envs).map Prod.snd).flatten)

/-- The per-element operations issued by the array path of
`Repository.remove` (same fan-out shape as `persistResults`). -/
def removeResults {α : Type} (provider? : Option Nat) (envs : List (OpEnv α)) :
    List (Except Err α × List Event) :=
  ((List.range envs.length).zip envs).map (fun ie => removeOne provider? ie.1 ie.2)

/-- The array path of `Repository.remove`:
`Promise.all(entities.map(entity => this.remove(entity)))`. -/
def removeMany {α : Type} (provider? : Option Nat) (envs : List (OpEnv α)) :
    Except Err (List α) × List Event :=
  (collectExcept ((removeResults provider? envs).map Prod.fst),
   ((removeResults provider? envs).map Prod.snd).flatten)

/-- Recognizes `release` events in a trace. -/
def isRelease : Event → Bool
  | .release _ => true
  | _ => false

/-- Recognizes `releaseReused` events in a trace. -/
def isReleaseReused : Event → Bool
  | .releaseReused _ => true
  | _ => false

/-- Number of `release` calls in a trace. -/
def releaseCount (t : List Event) : Nat :=
  (t.filter isRelease).length

/-- Number of `releaseReused` calls in a trace. -/
def releaseReusedCount (t : List Event) : Nat :=
  (t.filter isReleaseReused).length

/-! ## Helper lemmas -/

theorem lookupVal_setProp (e : ObjectLiteral) (k k' : String) (v : JSVal) :
    lookupVal (setProp e k v) k' = if k = k' then some v else lookupVal e k' := by
  induction e with
  | nil => simp [setProp, lookupVal]
  | cons hd tl ih =>
      obtain ⟨hk, hv⟩ := hd
      by_cases h1 : hk = k
      · subst h1
        simp only [setProp, if_pos rfl, lookupVal]
        split_ifs <;> rfl
      · simp only [setProp, if_neg h1, lookupVal, ih]
        by_cases h2 : hk = k'
        · subst h2
          have hne : ¬ k = hk := fun h => h1 h.symm
          simp [hne]
        · simp [h2]

theorem applyProps_cons (q : String) (rest : List String) (source : ObjectLiteral)
    (target : Entity) :
    applyProps (q :: rest) source target =
      applyProps rest source
        (match lookupVal source q with
         | some v => setProp target q v
         | none => target) := rfl

theorem lookupVal_applyProps (props : List String) (source : ObjectLiteral)
    (target : Entity) (p : String) :
    lookupVal (applyProps props source target) p =
      if p ∈ props ∧ (lookupVal source p).isSome then lookupVal source p
      else lookupVal target p := by
  induction props generalizing target with
  | nil => simp [applyProps]
  | cons q rest ih =>
      rw [applyProps_cons, ih]
      by_cases hmem : p ∈ rest ∧ (lookupVal source p).isSome
      · simp [hmem, List.mem_cons, hmem.1, hmem.2]
      · simp only [if_neg hmem]
        by_cases hq : q = p
        · subst hq
          cases hsrc : lookupVal source q with
          | none => simp [hsrc, List.mem_cons]
          | some v =>
              simp [hsrc, lookupVal_setProp, List.mem_cons]
        · cases hsrc : lookupVal source q with
          | none =>
              have : ¬ (p ∈ q :: rest ∧ (lookupVal source p).isSome) := by
                intro hcon
                rcases hcon with ⟨hin, hsome⟩
                rcases List.mem_cons.mp hin with h | h
                · exact hq h.symm
                · exact hmem ⟨h, hsome⟩
              simp only [List.mem_cons] at this
              simp [this]
          | some v =>
              have : ¬ (p ∈ q :: rest ∧ (lookupVal source p).isSome) := by
                intro hcon
                rcases hcon with ⟨hin, hsome⟩
                rcases List.mem_cons.mp hin with h | h
                · exact hq h.symm
                · exact hmem ⟨h, hsome⟩
              simp only [List.mem_cons] at this
              simp [this, lookupVal_setProp, hq]

theorem lookupVal_transform (target : Entity) (source : ObjectLiteral)
    (meta : EntityMetadata) (p : String) :
    lookupVal (transform target source meta) p =
      if p ∈ meta.schemaProperties ∧ (lookupVal source p).isSome then lookupVal source p
      else lookupVal target p :=
  lookupVal_applyProps meta.schemaProperties source target p

/-- The value a sequence of source objects leaves on a schema-known property
when applied in order over an initial value: the last object that provides
the property wins; objects not providing it leave the value unchanged. -/
def lastProvidedValue (objects : List ObjectLiteral) (p : String)
    (init : Option JSVal) : Option JSVal :=
  objects.foldl
    (fun acc o =>
      match lookupVal o p with
      | some v => some v
      | none => acc)
    init

theorem lookupVal_mergeFold (meta : EntityMetadata) (objects : List ObjectLiteral)
    (t : Entity) (p : String) :
    lookupVal (objects.foldl (fun acc o => transform acc o meta) t) p =
      if p ∈ meta.schemaProperties then lastProvidedValue objects p (lookupVal t p)
      else lookupVal t p := by
  induction objects generalizing t with
  | nil => simp [lastProvidedValue]
  | cons o rest ih =>
      simp only [List.foldl_cons]
      rw [ih]
      by_cases hp : p ∈ meta.schemaProperties
      · simp only [hp, if_true]
        rw [lookupVal_transform]
        cases ho : lookupVal o p with
        | none => simp [lastProvidedValue, ho, hp]
        | some v => simp [lastProvidedValue, ho, hp]
      · simp only [hp, if_false]
        rw [lookupVal_transform]
        simp [hp]

theorem hasIdValue_iff (v : JSVal) :
    hasIdValue v = true ↔ v ≠ .null ∧ v ≠ .undefined ∧ v ≠ .str "" := by
  cases v <;> simp [hasIdValue]

/-- Example metadata: a `user` table with the single primary key `id` and the
schema properties `id`, `x`, `y`, `name`. -/
def userMeta : EntityMetadata :=
  { target := "User"
    tableName := "user"
    primaryColumns := [{ propertyName := "id", name := "id" }]
    parentIdColumns := []
    schemaProperties := ["id", "x", "y", "name"] }

/-! ## Claims -/

/-- C6: `hasId(entity)` returns true iff every primary-key property of the
metadata is an own property of the entity whose value is neither `null` nor
`undefined` nor `""`; it returns false as soon as some primary-key property
is absent or holds one of those empty values. It is a pure function of the
metadata and the entity. -/
theorem hasId_spec (meta : EntityMetadata) (entity : Entity) :
    (hasId meta entity = true ↔
      ∀ pc ∈ meta.primaryColumns, ∃ v,
        lookupVal entity pc.propertyName = some v ∧
        v ≠ .null ∧ v ≠ .undefined ∧ v ≠ .str "")
    ∧ ((∃ pc ∈ meta.primaryColumns,
          lookupVal entity pc.propertyName = none ∨
          lookupVal entity pc.propertyName = some .null ∨
          lookupVal entity pc.propertyName = some .undefined ∨
          lookupVal entity pc.propertyName = some (.str "")) →
        hasId meta entity = false) := by
  have hiff : hasId meta entity = true ↔
      ∀ pc ∈ meta.primaryColumns, ∃ v,
        lookupVal entity pc.propertyName = some v ∧
        v ≠ .null ∧ v ≠ .undefined ∧ v ≠ .str "" := by
    simp only [hasId, List.all_eq_true]
    constructor
    · intro h pc hpc
      have := h pc hpc
      cases hl : lookupVal entity pc.propertyName with
      | none => rw [hl] at this; exact absurd this (by simp)
      | some v =>
          rw [hl] at this
          exact ⟨v, rfl, (hasIdValue_iff v).mp this⟩
    · intro h pc hpc
      obtain ⟨v, hl, hv⟩ := h pc hpc
      rw [hl]
      exact (hasIdValue_iff v).mpr hv
  refine ⟨hiff, ?_⟩
  intro ⟨pc, hpc, hbad⟩
  by_contra hfalse
  have htrue : hasId meta entity = true := by
    cases h : hasId meta entity
    · exact absurd h hfalse
    · rfl
  obtain ⟨v, hl, h1, h2, h3⟩ := hiff.mp htrue pc hpc
  rcases hbad with h | h | h | h
  · rw [hl] at h; exact Option.noConfusion h
  · rw [hl] at h; exact h1 (Option.some.inj h)
  · rw [hl] at h; exact h2 (Option.some.inj h)
  · rw [hl] at h; exact h3 (Option.some.inj h)

/-- C6 witness: on the example metadata, an entity whose `id` is the number
`0` has an id, and an entity whose `id` is `null` does not. -/
theorem hasId_spec_witness :
    hasId userMeta [("id", JSVal.num 0)] = true
    ∧ hasId userMeta [("id", JSVal.null)] = false := by
  constructor
  · exact (hasId_spec userMeta [("id", JSVal.num 0)]).1.mpr
      (by
        intro pc hpc
        simp only [userMeta, List.mem_singleton] at hpc
        subst hpc
        exact ⟨JSVal.num 0, by simp [lookupVal], by simp, by simp, by simp⟩)
  · exact (hasId_spec userMeta [("id", JSVal.null)]).2
      ⟨{ propertyName := "id", name := "id" }, by simp [userMeta],
        Or.inr (Or.inl (by simp [lookupVal]))⟩

/-- C8: `create` on an array equals the element-wise scalar `create`, and the
scalar `create` never sets a property that is absent from the metadata
schema on the resulting entity. -/
theorem create_spec (meta : EntityMetadata) (os : List ObjectLiteral)
    (o : ObjectLiteral) (k : String) :
    create meta (.arr os) = .many (os.map fun x => createScalar meta (some x))
    ∧ (∀ x ∈ os, create meta (.obj x) = .one (createScalar meta (some x)))
    ∧ (k ∉ meta.schemaProperties → lookupVal (createScalar meta (some o)) k = none) := by
  refine ⟨rfl, fun x _ => rfl, ?_⟩
  intro hk
  simp only [createScalar, transform, EntityMetadata.createInstance]
  rw [lookupVal_applyProps]
  simp [hk, lookupVal]

/-- C8 witness: creating from an object carrying the schema-unknown property
`zzz` leaves that property unset on the result. -/
theorem create_spec_witness :
    lookupVal (createScalar userMeta (some [("zzz", JSVal.num 1), ("x", JSVal.num 2)])) "zzz"
      = none := by
  exact (create_spec userMeta [] [("zzz", JSVal.num 1), ("x", JSVal.num 2)] "zzz").2.2
    (by simp [userMeta])

/-- C9: `merge(...objects)` folds all objects into one freshly created
entity: a schema-known property ends up with the value provided by the last
argument that carries it (later arguments win), a schema-unknown property is
never set, and in particular merging `x=1, y=2` with `x=5` yields an entity
with `x=5` and `y=2`. -/
theorem merge_spec (meta : EntityMetadata) (objects : List ObjectLiteral) (p : String) :
    (lookupVal (merge meta objects) p =
      if p ∈ meta.schemaProperties then lastProvidedValue objects p none else none)
    ∧ lookupVal
        (merge userMeta [[("x", JSVal.num 1), ("y", JSVal.num 2)], [("x", JSVal.num 5)]])
        "x" = some (JSVal.num 5)
    ∧ lookupVal
        (merge userMeta [[("x", JSVal.num 1), ("y", JSVal.num 2)], [("x", JSVal.num 5)]])
        "y" = some (JSVal.num 2) := by
  refine ⟨?_, rfl, rfl⟩
  simp only [merge, EntityMetadata.createInstance]
  rw [lookupVal_mergeFold]
  simp [lookupVal]

/-- The alias resolution of the find path, over the effective find options:
the declared alias when find options are present, else the table name. -/
def findAlias (meta : EntityMetadata) (options : Option FindOptions) : String :=
  match options with
  | some f => f.aliasName
  | none => meta.tableName

theorem foldl_andWhere (c : ObjectLiteral) (qb : QueryBuilder) (g : String × JSVal → String) :
    c.foldl (fun acc kv => acc.andWhere (g kv)) qb =
      { qb with whereConds := qb.whereConds ++ c.map (fun kv => g kv) } := by
  induction c generalizing qb with
  | nil => simp
  | cons hd tl ih =>
      simp only [List.foldl_cons, List.map_cons]
      rw [ih]
      simp [QueryBuilder.andWhere]

theorem createFindQueryBuilder_conds (meta : EntityMetadata) (c : ObjectLiteral)
    (options : Option FindOptions) :
    createFindQueryBuilder meta (.conds c) options =
      { selectAlias := some (findAlias meta options)
        fromClause := some (meta.target, findAlias meta options)
        whereConds := c.map (fun kv =>
          (if hasDot kv.1 then kv.1
           else findAlias meta options ++ "." ++ kv.1) ++ "=:" ++ kv.1)
        parameters := c
        appliedOptions := options } := by
  cases options with
  | none =>
      simp only [createFindQueryBuilder, findAlias]
      rw [foldl_andWhere]
      simp [createQueryBuilder, QueryBuilder.select, QueryBuilder.from,
            QueryBuilder.addParameters]
  | some f =>
      simp only [createFindQueryBuilder, findAlias]
      rw [foldl_andWhere]
      simp [createQueryBuilder, QueryBuilder.select, QueryBuilder.from,
            applyOptionsToQueryBuilder, QueryBuilder.addParameters]

theorem createFindQueryBuilder_findOpts (meta : EntityMetadata) (f : FindOptions)
    (options : Option FindOptions) :
    createFindQueryBuilder meta (.findOpts f) options =
      { selectAlias := some f.aliasName
        fromClause := some (meta.target, f.aliasName)
        whereConds := []
        parameters := []
        appliedOptions := some f } := by
  simp [createFindQueryBuilder, createQueryBuilder, QueryBuilder.select,
        QueryBuilder.from, applyOptionsToQueryBuilder]

theorem createFindQueryBuilder_absent (meta : EntityMetadata)
    (options : Option FindOptions) :
    createFindQueryBuilder meta .absent options =
      { selectAlias := some (findAlias meta options)
        fromClause := some (meta.target, findAlias meta options)
        whereConds := []
        parameters := []
        appliedOptions := options } := by
  cases options <;>
    simp [createFindQueryBuilder, findAlias, createQueryBuilder, QueryBuilder.select,
          QueryBuilder.from, applyOptionsToQueryBuilder]

/-- C3: the find-filter resolution helper resolves the alias to the find
options' declared alias when find options are present and to the table name
otherwise, qualifies every conditions key that lacks a `.` with the alias
(keys with a `.` are used as-is), emits one ANDed `name=:key` equality
predicate per key, binds the whole conditions object as named parameters,
and with no arguments produces an unfiltered query over the table under the
table-name alias; on the spec's example the alias is `u`, the predicate is
`u.name=:name` and the options (with `maxResults` 10) are applied. -/
theorem createFindQueryBuilder_spec (meta : EntityMetadata) (c : ObjectLiteral)
    (f : FindOptions) (options : Option FindOptions) :
    ((createFindQueryBuilder meta (.conds c) options).selectAlias
        = some (findAlias meta options)
      ∧ (createFindQueryBuilder meta (.conds c) options).fromClause
        = some (meta.target, findAlias meta options)
      ∧ (createFindQueryBuilder meta (.conds c) options).whereConds
        = c.map (fun kv =>
            (if hasDot kv.1 then kv.1
             else findAlias meta options ++ "." ++ kv.1) ++ "=:" ++ kv.1)
      ∧ (createFindQueryBuilder meta (.conds c) options).parameters = c)
    ∧ findAlias meta none = meta.tableName
    ∧ (∀ fo, findAlias meta (some fo) = fo.aliasName)
    ∧ (createFindQueryBuilder meta (.findOpts f) options).selectAlias = some f.aliasName
    ∧ createFindQueryBuilder meta .absent none =
        { selectAlias := some meta.tableName
          fromClause := some (meta.target, meta.tableName)
          whereConds := []
          parameters := []
          appliedOptions := none }
    ∧ createFindQueryBuilder userMeta (.conds [("name", JSVal.str "a")])
        (some { aliasName := "u", maxResults := some 10 }) =
        { selectAlias := some "u"
          fromClause := some ("User", "u")
          whereConds := ["u.name=:name"]
          parameters := [("name", JSVal.str "a")]
          appliedOptions := some { aliasName := "u", maxResults := some 10 } } := by
  refine ⟨⟨?_, ?_, ?_, ?_⟩, rfl, fun fo => rfl, ?_, ?_, ?_⟩
  · rw [createFindQueryBuilder_conds]
  · rw [createFindQueryBuilder_conds]
  · rw [createFindQueryBuilder_conds]
  · rw [createFindQueryBuilder_conds]
  · rw [createFindQueryBuilder_findOpts]
  · rw [createFindQueryBuilder_absent]
    simp [findAlias]
  · rw [createFindQueryBuilder_conds]
    rfl

/-- C10: when the first positional argument of `find`/`findAndCount`/
`findOne` is itself a `FindOptions` object, the second options argument is
silently ignored — the built query equals the one built without it, the
applied options are the first argument's, and no conditions predicate or
parameter is added. -/
theorem second_options_ignored (meta : EntityMetadata) (f opts2 : FindOptions)
    (exec : QueryBuilder → List Entity) (execCount : QueryBuilder → Nat) :
    createFindQueryBuilder meta (.findOpts f) (some opts2)
      = createFindQueryBuilder meta (.findOpts f) none
    ∧ (createFindQueryBuilder meta (.findOpts f) (some opts2)).appliedOptions = some f
    ∧ (createFindQueryBuilder meta (.findOpts f) (some opts2)).whereConds = []
    ∧ (createFindQueryBuilder meta (.findOpts f) (some opts2)).parameters = []
    ∧ find exec meta (.findOpts f) (some opts2) = find exec meta (.findOpts f) none
    ∧ findAndCount exec execCount meta (.findOpts f) (some opts2)
      = findAndCount exec execCount meta (.findOpts f) none
    ∧ findOne exec meta (.findOpts f) (some opts2) = findOne exec meta (.findOpts f) none := by
  have h : createFindQueryBuilder meta (.findOpts f) (some opts2)
      = createFindQueryBuilder meta (.findOpts f) none := by
    rw [createFindQueryBuilder_findOpts, createFindQueryBuilder_findOpts]
  refine ⟨h, ?_, ?_, ?_, ?_, ?_, ?_⟩
  · rw [createFindQueryBuilder_findOpts]
  · rw [createFindQueryBuilder_findOpts]
  · rw [createFindQueryBuilder_findOpts]
  · simp [find, getResults, h]
  · simp [findAndCount, h]
  · simp [findOne, getSingleResult, h]

/-- Metadata with a composite primary key whose database column names differ
from the entity property names (`a` ↦ `colA`, `b` ↦ `colB`). -/
def c4Meta : EntityMetadata :=
  { target := "T"
    tableName := "t"
    primaryColumns :=
      [{ propertyName := "a", name := "colA" }, { propertyName := "b", name := "colB" }]
    parentIdColumns := []
    schemaProperties := ["a", "b"] }

/-- An id mapping providing a value per primary-key PROPERTY name. -/
def c4Id : IdArg :=
  .mapping [("a", JSVal.num 1), ("b", JSVal.num 2)]

/-- C4 counterexample: on a composite key whose column names differ from the
property names, the conditions the source builds (indexing `id` by the
COLUMN name) differ from the conditions the claim describes (a value per
primary-key PROPERTY): the source binds `undefined` for both columns while
the claim predicts the provided values. -/
theorem findOneById_claim_counterexample :
    findOneByIdConditions c4Meta c4Id ≠ findOneByIdConditionsClaim c4Meta c4Id
    ∧ findOneByIdConditions c4Meta c4Id
      = [("colA", JSVal.undefined), ("colB", JSVal.undefined)]
    ∧ findOneByIdConditionsClaim c4Meta c4Id
      = [("colA", JSVal.num 1), ("colB", JSVal.num 2)] := by
  have e1 : findOneByIdConditions c4Meta c4Id
      = [("colA", JSVal.undefined), ("colB", JSVal.undefined)] := by
    simp [findOneByIdConditions, c4Meta, c4Id, EntityMetadata.hasMultiplePrimaryKeys,
          idIndex, lookupVal]
  have e2 : findOneByIdConditionsClaim c4Meta c4Id
      = [("colA", JSVal.num 1), ("colB", JSVal.num 2)] := by
    simp [findOneByIdConditionsClaim, c4Meta, c4Id, EntityMetadata.hasMultiplePrimaryKeys,
          idIndex, lookupVal]
  refine ⟨?_, e1, e2⟩
  rw [e1, e2]
  intro h
  injection h with h1 h2
  exact JSVal.noConfusion (congrArg Prod.snd h1)

/-- C4 (amended): `findOneById` builds an equality condition set from `id`:
with a composite key one entry per primary-key column keyed by the column
name with the value `id[column name]` (not the property name), then one
entry per parent-id column with the value `id[property name]`; otherwise the
single scalar `id` is bound to the sole primary-key column or, absent any
primary key, to the first parent-id column; the conditions are delegated to
the same single-result query path as `findOne`, returning the first row or
absence without throwing. -/
theorem findOneById_amended (exec : QueryBuilder → List Entity) (meta : EntityMetadata)
    (id : IdArg) (options : Option FindOptions) :
    (meta.hasMultiplePrimaryKeys = true →
      findOneByIdConditions meta id =
        meta.primaryColumns.map (fun pc => (pc.name, idIndex id pc.name))
        ++ meta.parentIdColumns.map (fun pc => (pc.name, idIndex id pc.propertyName)))
    ∧ (∀ pc rest, meta.hasMultiplePrimaryKeys = false →
        meta.primaryColumns = pc :: rest →
        findOneByIdConditions meta id = [(pc.name, idAsVal id)])
    ∧ (∀ pc rest, meta.primaryColumns = [] → meta.parentIdColumns = pc :: rest →
        findOneByIdConditions meta id = [(pc.name, idAsVal id)])
    ∧ findOneById exec meta id options
      = findOne exec meta (.conds (findOneByIdConditions meta id)) options
    ∧ findOneById exec meta id options
      = (exec (createFindQueryBuilder meta
          (.conds (findOneByIdConditions meta id)) options)).head?
    ∧ (createFindQueryBuilder userMeta
        (.conds (findOneByIdConditions userMeta (.scalar (JSVal.num 5)))) none).whereConds
      = ["user.id=:id"]
    ∧ (createFindQueryBuilder userMeta
        (.conds (findOneByIdConditions userMeta (.scalar (JSVal.num 5)))) none).parameters
      = [("id", JSVal.num 5)] := by
  refine ⟨?_, ?_, ?_, rfl, rfl, ?_, ?_⟩
  · intro h
    simp [findOneByIdConditions, h]
  · intro pc rest h1 h2
    simp [findOneByIdConditions, h1, h2]
  · intro pc rest h1 h2
    simp [findOneByIdConditions, EntityMetadata.hasMultiplePrimaryKeys, h1, h2]
  · rw [createFindQueryBuilder_conds]
    rfl
  · rw [createFindQueryBuilder_conds]
    rfl

/-- C4 witness: the amended condition-building rules evaluated on the
composite-key metadata and on the spec's single-key `findOneById(5)`
example. -/
theorem findOneById_amended_witness :
    findOneByIdConditions c4Meta c4Id
      = [("colA", JSVal.undefined), ("colB", JSVal.undefined)]
    ∧ findOneByIdConditions userMeta (.scalar (JSVal.num 5)) = [("id", JSVal.num 5)] := by
  constructor
  · have h := (findOneById_amended (fun _ => []) c4Meta c4Id none).1 (by rfl)
    rw [h]
    rfl
  · have h := (findOneById_amended (fun _ => []) userMeta (.scalar (JSVal.num 5)) none).2.1
      { propertyName := "id", name := "id" } [] (by rfl) rfl
    rw [h]
    rfl

/-! ## Query-runner lifecycle claims -/

theorem transaction_releaseCount_ok {α : Type} (provider? : Option Nat) (fresh : Nat)
    (env : TxEnv α) (h : env.provideResult = .ok ()) :
    releaseCount (transaction provider? fresh env).snd = 1 := by
  obtain ⟨pr, bg, wk, cm, rb, rl, rr⟩ := env
  simp only at h
  subst h
  cases provider? <;> cases bg <;> cases wk <;> cases cm <;> cases rb <;> cases rl <;>
    cases rr <;> simp [transaction, releaseCount, isRelease]

theorem transaction_releaseCount_err {α : Type} (provider? : Option Nat) (fresh : Nat)
    (env : TxEnv α) (e : Err) (h : env.provideResult = .error e) :
    releaseCount (transaction provider? fresh env).snd = 0 := by
  obtain ⟨pr, bg, wk, cm, rb, rl, rr⟩ := env
  simp only at h
  subst h
  cases provider? <;> simp [transaction, releaseCount, isRelease]

/-- C1: `transaction(work)` acquires a runner from the provider supplied at
construction or from a provider it creates itself, begins a transaction,
invokes the work function with a repository bound to that same provider,
commits and returns the work's value on success, rolls back and rethrows the
work's error on failure, issues exactly one `release` on the provider after
every successful acquisition (and none when acquisition fails), and calls
`releaseReused` on the provider iff this repository was constructed without
a provider. -/
theorem transaction_spec (provider? : Option Nat) (fresh : Nat) (env : TxEnv Nat) :
    (transaction provider? fresh env).snd.head?
      = some (.provide (provider?.getD fresh))
    ∧ (∀ a : Nat, env.provideResult = .ok () → env.beginResult = .ok () →
        env.workResult = .ok a → env.commitResult = .ok () →
        env.releaseResult = .ok () → env.releaseReusedResult = .ok () →
        (transaction provider? fresh env).fst = .ok a
        ∧ (transaction provider? fresh env).snd =
            [.provide (provider?.getD fresh), .beginTx, .runWork (provider?.getD fresh),
             .commitTx, .release (provider?.getD fresh)]
            ++ (match provider? with
                | none => [.releaseReused (provider?.getD fresh)]
                | some _ => []))
    ∧ (∀ e : Err, env.provideResult = .ok () → env.beginResult = .ok () →
        env.workResult = .error e → env.rollbackResult = .ok () →
        env.releaseResult = .ok () → env.releaseReusedResult = .ok () →
        (transaction provider? fresh env).fst = .error e
        ∧ (transaction provider? fresh env).snd =
            [.provide (provider?.getD fresh), .beginTx, .runWork (provider?.getD fresh),
             .rollbackTx, .release (provider?.getD fresh)]
            ++ (match provider? with
                | none => [.releaseReused (provider?.getD fresh)]
                | some _ => []))
    ∧ (env.provideResult = .ok () →
        releaseCount (transaction provider? fresh env).snd = 1)
    ∧ (∀ e : Err, env.provideResult = .error e →
        releaseCount (transaction provider? fresh env).snd = 0)
    ∧ (env.provideResult = .ok () → env.releaseResult = .ok () →
        releaseReusedCount (transaction provider? fresh env).snd =
          (match provider? with | none => 1 | some _ => 0))
    ∧ (env.provideResult = .ok () → env.beginResult = .ok () →
        Event.runWork (provider?.getD fresh) ∈ (transaction provider? fresh env).snd) := by
  obtain ⟨pr, bg, wk, cm, rb, rl, rr⟩ := env
  refine ⟨?_, ?_, ?_, ?_, ?_, ?_, ?_⟩
  · cases pr <;> cases provider? <;> simp [transaction]
  · intro a hpr hbg hwk hcm hrl hrr
    simp only at hpr hbg hwk hcm hrl hrr
    subst hpr; subst hbg; subst hwk; subst hcm; subst hrl; subst hrr
    cases provider? <;> simp [transaction]
  · intro e hpr hbg hwk hrb hrl hrr
    simp only at hpr hbg hwk hrb hrl hrr
    subst hpr; subst hbg; subst hwk; subst hrb; subst hrl; subst hrr
    cases provider? <;> simp [transaction]
  · intro hpr
    exact transaction_releaseCount_ok provider? fresh ⟨pr, bg, wk, cm, rb, rl, rr⟩ hpr
  · intro e hpr
    exact transaction_releaseCount_err provider? fresh ⟨pr, bg, wk, cm, rb, rl, rr⟩ e hpr
  · intro hpr hrl
    simp only at hpr hrl
    subst hpr; subst hrl
    cases provider? <;> cases bg <;> cases wk <;> cases cm <;> cases rb <;> cases rr <;>
      simp [transaction, releaseReusedCount, isReleaseReused]
  · intro hpr hbg
    simp only at hpr hbg
    subst hpr; subst hbg
    cases provider? <;> cases wk <;> cases cm <;> cases rb <;> cases rl <;> cases rr <;>
      simp [transaction]

/-- Environment in which every external call of a transaction succeeds and
the work function returns `7`. -/
def txEnvOk : TxEnv Nat :=
  { provideResult := .ok ()
    beginResult := .ok ()
    workResult := .ok 7
    commitResult := .ok ()
    rollbackResult := .ok ()
    releaseResult := .ok ()
    releaseReusedResult := .ok () }

/-- Environment in which the work function throws `boom` and everything else
succeeds. -/
def txEnvWorkFails : TxEnv Nat :=
  { provideResult := .ok ()
    beginResult := .ok ()
    workResult := .error "boom"
    commitResult := .ok ()
    rollbackResult := .ok ()
    releaseResult := .ok ()
    releaseReusedResult := .ok () }

/-- C1 witness: a repository that owns its provider commits and returns the
work's value with the expected trace (including `releaseReused`), and on a
failing work function it rolls back, rethrows and still releases. -/
theorem transaction_spec_witness :
    (transaction none 0 txEnvOk).fst = .ok 7
    ∧ (transaction none 0 txEnvOk).snd =
        [.provide 0, .beginTx, .runWork 0, .commitTx, .release 0, .releaseReused 0]
    ∧ (transaction (some 5) 0 txEnvWorkFails).fst = .error "boom"
    ∧ (transaction (some 5) 0 txEnvWorkFails).snd =
        [.provide 5, .beginTx, .runWork 5, .rollbackTx, .release 5] := by
  have h1 := (transaction_spec none 0 txEnvOk).2.1 7 rfl rfl rfl rfl rfl rfl
  have h2 := (transaction_spec (some 5) 0 txEnvWorkFails).2.2.1 "boom" rfl rfl rfl rfl rfl rfl
  exact ⟨h1.1, h1.2, h2.1, h2.2⟩

/-- C7: when the work function fails and the rollback itself also fails, the
rollback error propagates to the caller (replacing the work's error), and
the runner is still released exactly once in the cleanup step. -/
theorem rollback_failure_spec (provider? : Option Nat) (fresh : Nat) (env : TxEnv Nat)
    (e e2 : Err) :
    env.provideResult = .ok () → env.beginResult = .ok () →
    env.workResult = .error e → env.rollbackResult = .error e2 →
    env.releaseResult = .ok () → env.releaseReusedResult = .ok () →
    (transaction provider? fresh env).fst = .error e2
    ∧ releaseCount (transaction provider? fresh env).snd = 1
    ∧ Event.rollbackTx ∈ (transaction provider? fresh env).snd := by
  obtain ⟨pr, bg, wk, cm, rb, rl, rr⟩ := env
  intro hpr hbg hwk hrb hrl hrr
  simp only at hpr hbg hwk hrb hrl hrr
  subst hpr; subst hbg; subst hwk; subst hrb; subst hrl; subst hrr
  cases provider? <;> simp [transaction, releaseCount, isRelease]

/-- Environment in which the work function throws `boom` and the rollback
then throws `rollback-failed`. -/
def txEnvRollbackFails : TxEnv Nat :=
  { provideResult := .ok ()
    beginResult := .ok ()
    workResult := .error "boom"
    commitResult := .ok ()
    rollbackResult := .error "rollback-failed"
    releaseResult := .ok ()
    releaseReusedResult := .ok () }

/-- C7 witness: with work failing with `boom` and rollback failing with
`rollback-failed`, the caller observes `rollback-failed` (the original
`boom` is masked) and the runner is released exactly once. -/
theorem rollback_failure_spec_witness :
    (transaction none 0 txEnvRollbackFails).fst = .error "rollback-failed"
    ∧ releaseCount (transaction none 0 txEnvRollbackFails).snd = 1
    ∧ Event.rollbackTx ∈ (transaction none 0 txEnvRollbackFails).snd := by
  exact rollback_failure_spec none 0 txEnvRollbackFails "boom" "rollback-failed"
    rfl rfl rfl rfl rfl rfl

/-- C2: every top-level single-entity operation that leases a runner
(`persist` on one entity, `remove` on one entity, `query`, `transaction`)
calls the provider's `release` exactly once per successful `provide` — on
the normal path and on the throwing path alike — and never when `provide`
itself failed; when the delegated step throws and the release succeeds, the
delegate's error reaches the caller unchanged, after the release. -/
theorem release_discipline (provider? : Option Nat) (fresh : Nat)
    (envP envR envQ : OpEnv Nat) (envT : TxEnv Nat) :
    ((envP.provideResult = .ok () →
        releaseCount (persistOne provider? fresh envP).snd = 1)
      ∧ (∀ e, envP.provideResult = .error e →
          releaseCount (persistOne provider? fresh envP).snd = 0)
      ∧ (∀ e, envP.provideResult = .ok () → envP.delegateResult = .error e →
          envP.releaseResult = .ok () →
          (persistOne provider? fresh envP).fst = .error e
          ∧ (persistOne provider? fresh envP).snd =
              [.provide (provider?.getD fresh), .persistCall,
               .release (provider?.getD fresh)])
      ∧ (∀ a, envP.provideResult = .ok () → envP.delegateResult = .ok a →
          envP.releaseResult = .ok () →
          (persistOne provider? fresh envP).fst = .ok a))
    ∧ ((envR.provideResult = .ok () →
          releaseCount (removeOne provider? fresh envR).snd = 1)
      ∧ (∀ e, envR.provideResult = .error e →
          releaseCount (removeOne provider? fresh envR).snd = 0)
      ∧ (∀ e, envR.provideResult = .ok () → envR.delegateResult = .error e →
          envR.releaseResult = .ok () →
          (removeOne provider? fresh envR).fst = .error e
          ∧ (removeOne provider? fresh envR).snd =
              [.provide (provider?.getD fresh), .removeCall,
               .release (provider?.getD fresh)]))
    ∧ ((envQ.provideResult = .ok () →
          releaseCount (queryOp provider? fresh envQ).snd = 1)
      ∧ (∀ e, envQ.provideResult = .error e →
          releaseCount (queryOp provider? fresh envQ).snd = 0)
      ∧ (∀ e, envQ.provideResult = .ok () → envQ.delegateResult = .error e →
          envQ.releaseResult = .ok () →
          (queryOp provider? fresh envQ).fst = .error e
          ∧ (queryOp provider? fresh envQ).snd =
              [.provide (provider?.getD fresh), .runQuery,
               .release (provider?.getD fresh)]))
    ∧ ((envT.provideResult = .ok () →
          releaseCount (transaction provider? fresh envT).snd = 1)
      ∧ (∀ e, envT.provideResult = .error e →
          releaseCount (transaction provider? fresh envT).snd = 0)
      ∧ (∀ e, envT.provideResult = .ok () → envT.beginResult = .ok () →
          envT.workResult = .error e → envT.rollbackResult = .ok () →
          envT.releaseResult = .ok () → envT.releaseReusedResult = .ok () →
          (transaction provider? fresh envT).fst = .error e)) := by
  obtain ⟨prP, dP, rlP⟩ := envP
  obtain ⟨prR, dR, rlR⟩ := envR
  obtain ⟨prQ, dQ, rlQ⟩ := envQ
  refine ⟨⟨?_, ?_, ?_, ?_⟩, ⟨?_, ?_, ?_⟩, ⟨?_, ?_, ?_⟩, ?_, ?_, ?_⟩
  · intro h
    simp only at h
    subst h
    cases dP <;> cases rlP <;> simp [persistOne, releaseCount, isRelease]
  · intro e h
    simp only at h
    subst h
    simp [persistOne, releaseCount, isRelease]
  · intro e h1 h2 h3
    simp only at h1 h2 h3
    subst h1; subst h2; subst h3
    simp [persistOne]
  · intro a h1 h2 h3
    simp only at h1 h2 h3
    subst h1; subst h2; subst h3
    simp [persistOne]
  · intro h
    simp only at h
    subst h
    cases dR <;> cases rlR <;> simp [removeOne, releaseCount, isRelease]
  · intro e h
    simp only at h
    subst h
    simp [removeOne, releaseCount, isRelease]
  · intro e h1 h2 h3
    simp only at h1 h2 h3
    subst h1; subst h2; subst h3
    simp [removeOne]
  · intro h
    simp only at h
    subst h
    cases dQ <;> cases rlQ <;> simp [queryOp, releaseCount, isRelease]
  · intro e h
    simp only at h
    subst h
    simp [queryOp, releaseCount, isRelease]
  · intro e h1 h2 h3
    simp only at h1 h2 h3
    subst h1; subst h2; subst h3
    simp [queryOp]
  · intro h
    exact transaction_releaseCount_ok provider? fresh envT h
  · intro e h
    exact transaction_releaseCount_err provider? fresh envT e h
  · intro e h1 h2 h3 h4 h5 h6
    obtain ⟨prT, bgT, wkT, cmT, rbT, rlT, rrT⟩ := envT
    simp only at h1 h2 h3 h4 h5 h6
    subst h1; subst h2; subst h3; subst h4; subst h5; subst h6
    cases provider? <;> simp [transaction]

/-- Environment in which every external call succeeds and the delegate
returns `3`. -/
def opEnvOk : OpEnv Nat :=
  { provideResult := .ok (), delegateResult := .ok 3, releaseResult := .ok () }

/-- Environment in which the delegated step throws `boom` while provide and
release succeed. -/
def opEnvDelegateFails : OpEnv Nat :=
  { provideResult := .ok (), delegateResult := .error "boom", releaseResult := .ok () }

/-- C2 witness: a failing persist delegate still yields exactly one release
and rethrows `boom` after it; a successful query releases once and returns
the delegate's value. -/
theorem release_discipline_witness :
    releaseCount (persistOne none 0 opEnvDelegateFails).snd = 1
    ∧ (persistOne none 0 opEnvDelegateFails).fst = .error "boom"
    ∧ (persistOne none 0 opEnvDelegateFails).snd = [.provide 0, .persistCall, .release 0]
    ∧ releaseCount (queryOp (some 2) 0 opEnvOk).snd = 1
    ∧ (queryOp none 0 opEnvDelegateFails).fst = .error "boom"
    ∧ (persistOne none 0 opEnvOk).fst = .ok 3 := by
  have h := release_discipline none 0 opEnvDelegateFails opEnvDelegateFails
    opEnvDelegateFails txEnvOk
  have h2 := release_discipline (some 2) 0 opEnvOk opEnvOk opEnvOk txEnvOk
  have h3 := release_discipline none 0 opEnvOk opEnvOk opEnvOk txEnvOk
  refine ⟨h.1.1 rfl, ?_, ?_, h2.2.2.1.1 rfl, ?_, h3.1.2.2.2 3 rfl rfl rfl⟩
  · exact (h.1.2.2.1 "boom" rfl rfl rfl).1
  · exact (h.1.2.2.1 "boom" rfl rfl rfl).2
  · exact (h.2.2.1.2.2 "boom" rfl rfl rfl).1

theorem collectExcept_all_ok {α : Type} (rs : List (Except Err α))
    (h : ∀ r ∈ rs, ∃ v, r = .ok v) :
    ∃ vs, collectExcept rs = .ok vs ∧ rs = vs.map Except.ok := by
  induction rs with
  | nil => exact ⟨[], rfl, rfl⟩
  | cons r rest ih =>
      obtain ⟨v, hv⟩ := h r (List.mem_cons_self r rest)
      obtain ⟨vs, hc, hm⟩ := ih (fun x hx => h x (List.mem_cons_of_mem r hx))
      subst hv
      exact ⟨v :: vs, by simp [collectExcept, hc], by simp [hm]⟩

theorem collectExcept_append_error {α : Type} (pre suf : List (Except Err α)) (e : Err)
    (h : ∀ r ∈ pre, ∃ v, r = .ok v) :
    collectExcept (pre ++ .error e :: suf) = .error e := by
  induction pre with
  | nil => simp [collectExcept]
  | cons r rest ih =>
      obtain ⟨v, hv⟩ := h r (List.mem_cons_self r rest)
      subst hv
      have hrec := ih (fun x hx => h x (List.mem_cons_of_mem _ hx))
      simp [collectExcept, hrec]

theorem collectExcept_error_of_mem {α : Type} (rs : List (Except Err α)) (e : Err)
    (h : Except.error e ∈ rs) : ∃ e2, collectExcept rs = .error e2 := by
  induction rs with
  | nil => cases h
  | cons r rest ih =>
      cases r with
      | error e1 => exact ⟨e1, rfl⟩
      | ok v =>
          have hmem : Except.error e ∈ rest := by
            rcases List.mem_cons.mp h with h1 | h1
            · exact absurd h1 (by simp)
            · exact h1
          obtain ⟨e2, hc⟩ := ih hmem
          exact ⟨e2, by simp [collectExcept, hc]⟩

/-- C5: the array paths of `persist` and `remove` fan the per-element
operation out over every element and join with an all-or-nothing wait: when
every element succeeds the aggregate resolves with the element results in
input order; when some element fails, the first rejection propagates and the
aggregate rejects (no partial-success result); and every element's
acquire/delegate/release cycle is issued into the aggregate trace regardless
of sibling outcomes. -/
theorem fanout_spec (provider? : Option Nat) (envs : List (OpEnv Nat)) :
    ((∀ r ∈ persistResults provider? envs, ∃ v, r.fst = .ok v) →
      ∃ vs, (persistMany provider? envs).fst = .ok vs
        ∧ (persistResults provider? envs).map Prod.fst = vs.map Except.ok)
    ∧ (∀ pre r suf, persistResults provider? envs = pre ++ r :: suf →
        (∀ x ∈ pre, ∃ v, x.fst = .ok v) →
        ∀ e, r.fst = .error e → (persistMany provider? envs).fst = .error e)
    ∧ (∀ r ∈ persistResults provider? envs, ∀ e, r.fst = .error e →
        ∃ e2, (persistMany provider? envs).fst = .error e2)
    ∧ (∀ ie ∈ (List.range envs.length).zip envs,
        ((persistOne provider? ie.1 ie.2).snd).Sublist (persistMany provider? envs).snd)
    ∧ ((∀ r ∈ removeResults provider? envs, ∃ v, r.fst = .ok v) →
      ∃ vs, (removeMany provider? envs).fst = .ok vs
        ∧ (removeResults provider? envs).map Prod.fst = vs.map Except.ok)
    ∧ (∀ pre r suf, removeResults provider? envs = pre ++ r :: suf →
        (∀ x ∈ pre, ∃ v, x.fst = .ok v) →
        ∀ e, r.fst = .error e → (removeMany provider? envs).fst = .error e)
    ∧ (∀ r ∈ removeResults provider? envs, ∀ e, r.fst = .error e →
        ∃ e2, (removeMany provider? envs).fst = .error e2)
    ∧ (∀ ie ∈ (List.range envs.length).zip envs,
        ((removeOne provider? ie.1 ie.2).snd).Sublist (removeMany provider? envs).snd) := by
  refine ⟨?_, ?_, ?_, ?_, ?_, ?_, ?_, ?_⟩
  · intro h
    obtain ⟨vs, hc, hm⟩ := collectExcept_all_ok ((persistResults provider? envs).map Prod.fst)
      (by
        intro x hx
        obtain ⟨r, hr, rfl⟩ := List.mem_map.mp hx
        exact h r hr)
    exact ⟨vs, hc, hm⟩
  · intro pre r suf heq hok e herr
    have h1 : (persistMany provider? envs).fst
        = collectExcept ((pre.map Prod.fst) ++ .error e :: (suf.map Prod.fst)) := by
      simp only [persistMany, heq, List.map_append, List.map_cons, herr]
    rw [h1]
    exact collectExcept_append_error _ _ _
      (by
        intro x hx
        obtain ⟨r2, hr2, rfl⟩ := List.mem_map.mp hx
        exact hok r2 hr2)
  · intro r hr e herr
    exact collectExcept_error_of_mem _ e
      (List.mem_map.mpr ⟨r, hr, herr⟩)
  · intro ie hmem
    have h1 : (persistOne provider? ie.1 ie.2).snd
        ∈ (persistResults provider? envs).map Prod.snd := by
      rw [persistResults, List.map_map]
      exact List.mem_map.mpr ⟨ie, hmem, rfl⟩
    exact List.sublist_flatten_of_mem h1
  · intro h
    obtain ⟨vs, hc, hm⟩ := collectExcept_all_ok ((removeResults provider? envs).map Prod.fst)
      (by
        intro x hx
        obtain ⟨r, hr, rfl⟩ := List.mem_map.mp hx
        exact h r hr)
    exact ⟨vs, hc, hm⟩
  · intro pre r suf heq hok e herr
    have h1 : (removeMany provider? envs).fst
        = collectExcept ((pre.map Prod.fst) ++ .error e :: (suf.map Prod.fst)) := by
      simp only [removeMany, heq, List.map_append, List.map_cons, herr]
    rw [h1]
    exact collectExcept_append_error _ _ _
      (by
        intro x hx
        obtain ⟨r2, hr2, rfl⟩ := List.mem_map.mp hx
        exact hok r2 hr2)
  · intro r hr e herr
    exact collectExcept_error_of_mem _ e
      (List.mem_map.mpr ⟨r, hr, herr⟩)
  · intro ie hmem
    have h1 : (removeOne provider? ie.1 ie.2).snd
        ∈ (removeResults provider? envs).map Prod.snd := by
      rw [removeResults, List.map_map]
      exact List.mem_map.mpr ⟨ie, hmem, rfl⟩
    exact List.sublist_flatten_of_mem h1

/-- C5 witness: persisting two entities where the second delegate fails —
the aggregate rejects with that failure, yet both elements' releases were
issued; persisting two succeeding entities resolves with both results in
order. -/
theorem fanout_spec_witness :
    (persistMany none [opEnvOk, opEnvDelegateFails]).fst = .error "boom"
    ∧ releaseCount (persistMany none [opEnvOk, opEnvDelegateFails]).snd = 2
    ∧ (∃ vs, (persistMany none [opEnvOk, opEnvOk]).fst = .ok vs
        ∧ (persistResults none [opEnvOk, opEnvOk]).map Prod.fst = vs.map Except.ok) := by
  refine ⟨?_, ?_, ?_⟩
  · exact (fanout_spec none [opEnvOk, opEnvDelegateFails]).2.1
      [persistOne none 0 opEnvOk] (persistOne none 1 opEnvDelegateFails) []
      rfl
      (by
        intro x hx
        rcases List.mem_singleton.mp hx with rfl
        exact ⟨3, rfl⟩)
      "boom" rfl
  · rfl
  · exact (fanout_spec none [opEnvOk, opEnvOk]).1
      (by
        intro r hr
        rcases List.mem_cons.mp hr with rfl | hr2
        · exact ⟨3, rfl⟩
        · rcases List.mem_singleton.mp hr2 with rfl
          exact ⟨3, rfl⟩)

end IonicOrm
